import Mathlib

/-!
Shallow embedding of the fit-file importer from src/fits/import_fits.py and
proofs about its observable contract.

The Python source is a single function:

    def import_fits(filename, m):
        globalDict = {}
        if m != None:
            for d in dir(m):
                globalDict[d] = getattr(m, d)
        else:
            globalDict = None
        fits = {}
        fitFile = open(filename, "r")
        fitLines = fitFile.readlines()
        fitFile.close()
        for line in fitLines:
            if  not line.startswith('#'):
                split = line.find('=')
                key = line[0:split-1].strip()
                val = line[split+1:-1].strip()
                fits[key] = eval(val, globalDict)
        return fits

The embedding works over the list of lines produced by readlines (each line
keeps its trailing newline, except possibly the last).  Python primitives that
the source calls (slicing with negative indices, str.find, str.strip,
str.startswith, dict assignment, dir, getattr, eval) are embedded with their
Python semantics spelled out below.
-/

/-- Values produced by expression evaluation.  The domain values of the real
program are arbitrary Python objects; the model keeps the shapes the proofs
need: Python None, integers, strings, and opaque callables such as builtins
or module members. -/
inductive Value where
  | pynone
  | int (n : Int)
  | str (s : String)
  | builtin (name : String)
deriving DecidableEq

/-- A module / namespace-like object: its attribute dictionary, as name-value
pairs.  Python guarantees the attribute names are pairwise distinct. -/
abbrev PyModule := List (String × Value)

/-- A name environment (Python dict used as eval globals). -/
abbrev EvalEnv := List (String × Value)

/-- The resulting fits dictionary. -/
abbrev FitTable := List (String × Value)

/-- Python dict lookup on the association-list representation. -/
def dlookup (k : String) : List (String × Value) → Option Value
  | [] => Option.none
  | p :: rest => if p.1 = k then some p.2 else dlookup k rest

/-- Python dict assignment d[k] = v: overwrite the value in place when the key
is present, append a new entry otherwise (insertion order is preserved, as in
Python dicts). -/
def dset (d : List (String × Value)) (k : String) (v : Value) : List (String × Value) :=
  if d.any (fun p => p.1 = k) then d.map (fun p => if p.1 = k then (k, v) else p)
  else d ++ [(k, v)]

/-- Errors surfaced by the importer: Python exceptions from eval plus the
file-access failure of open. -/
inductive PyError where
  | syntaxError (src : String)
  | nameError (name : String)
  | fileNotFound (name : String)
deriving DecidableEq

instance {ε α : Type} [DecidableEq ε] [DecidableEq α] : DecidableEq (Except ε α) := fun a b =>
  match a, b with
  | Except.error e, Except.error f => decidable_of_iff (e = f) (by simp)
  | Except.error _, Except.ok _ => Decidable.isFalse (by simp)
  | Except.ok _, Except.error _ => Decidable.isFalse (by simp)
  | Except.ok x, Except.ok y => decidable_of_iff (x = y) (by simp)

/-- Clamp an (possibly negative) Python slice index to the range [0, n], as
Python slicing does: negative indices count from the end. -/
def pyIdx (n : Nat) (i : Int) : Nat :=
  (if i < 0 then max (i + n) 0 else min i n).toNat

/-- Python string slicing s[a:b] with step 1, including negative-index
semantics. -/
def pySlice (s : String) (a b : Int) : String :=
  let l := s.toList
  String.mk ((l.take (pyIdx l.length b)).drop (pyIdx l.length a))

/-- Index of the first occurrence of a character in a list, if any. -/
def idxOf? : List Char → Char → Option Nat
  | [], _ => Option.none
  | a :: rest, c => if a = c then some 0 else (idxOf? rest c).map (fun i => i + 1)

/-- Python str.find for a single-character needle: the index of the first
occurrence, and -1 when the character does not occur. -/
def pyFind (s : String) (c : Char) : Int :=
  match idxOf? s.toList c with
  | some i => (i : Int)
  | Option.none => -1

/-- Strip whitespace from both ends of a character list (Python str.strip). -/
def stripList (l : List Char) : List Char :=
  ((l.dropWhile Char.isWhitespace).reverse.dropWhile Char.isWhitespace).reverse

/-- Python str.strip with the default whitespace set. -/
def pyStrip (s : String) : String :=
  String.mk (stripList s.toList)

/-- Python line.startswith(c) for a one-character prefix. -/
def pyStartsWith (s : String) (c : Char) : Bool :=
  match s.toList with
  | [] => false
  | c0 :: _ => c0 = c

/-- The per-line split of the source:
split = line.find('='); key = line[0:split-1].strip();
val = line[split+1:-1].strip(). -/
def parseLine (line : String) : String × String :=
  let split := pyFind line ('=')
  (pyStrip (pySlice line 0 (split - 1)), pyStrip (pySlice line (split + 1) (-1)))

/-- Python dir(m) for a module: the names of all its attributes, public and
non-public alike (Python additionally sorts them; the order is irrelevant to
the dictionary built from it since attribute names are distinct). -/
def dirM (m : PyModule) : List String :=
  m.map Prod.fst

/-- Python getattr(m, name); for names produced by dir the lookup always
succeeds, so the default is never observable. -/
def getattrM (m : PyModule) (name : String) : Value :=
  (dlookup name m).getD Value.pynone

/-- The globalDict construction at the top of import_fits: a fresh dict of all
attributes when m is not None, and Python None (no dict at all) otherwise. -/
def makeGlobalDict (m : Option PyModule) : Option EvalEnv :=
  match m with
  | some mod => some ((dirM mod).foldl (fun g d => dset g d (getattrM mod d)) [])
  | Option.none => Option.none

/-- Model of the Python builtins namespace (representative members; the real
one is larger but every member behaves as an opaque named object here). -/
def builtins : EvalEnv :=
  [("abs", Value.builtin ("abs")), ("len", Value.builtin ("len")),
   ("min", Value.builtin ("min")), ("max", Value.builtin ("max")),
   ("open", Value.builtin ("open"))]

/-- Model of the global namespace of the importer module itself
(src/fits/import_fits.py): it contains the import_fits function and the
module dunders. -/
def importerGlobals : EvalEnv :=
  [("__name__", Value.str ("import_fits")),
   ("import_fits", Value.builtin ("import_fits"))]

def isIdentStart (c : Char) : Bool := c.isAlpha || c = ('_')

def isIdentChar (c : Char) : Bool := c.isAlphanum || c = ('_')

/-- Python identifier (ASCII fragment). -/
def isIdent (s : String) : Bool :=
  match s.toList with
  | [] => false
  | c :: cs => isIdentStart c && cs.all isIdentChar

/-- Nonempty all-digit string: a decimal integer literal. -/
def isIntLit (s : String) : Bool :=
  !s.toList.isEmpty && s.toList.all Char.isDigit

def digitsToNat (l : List Char) : Nat :=
  l.foldl (fun n c => 10 * n + (c.toNat - ('0').toNat)) 0

/-- Model of Python eval(src, globals) restricted to the expression shapes the
proofs exercise: decimal integer literals and bare identifiers.  Name
resolution follows Python: identifiers are looked up in the globals mapping
and then in builtins (eval inserts a __builtins__ binding into any globals
dict that lacks one); when globals is None, eval falls back to the calling
frame's globals, i.e. the namespace of the importer module itself, where
builtins are likewise reachable.  Anything else is a SyntaxError, as is the
empty string. -/
def pyEval (globals : Option EvalEnv) (s : String) : Except PyError Value :=
  let env : EvalEnv :=
    match globals with
    | some g => g
    | Option.none => importerGlobals
  if isIntLit s then Except.ok (Value.int (digitsToNat s.toList))
  else if isIdent s then
    match dlookup s env with
    | some v => Except.ok v
    | Option.none =>
      match dlookup s builtins with
      | some v => Except.ok v
      | Option.none => Except.error (PyError.nameError s)
  else Except.error (PyError.syntaxError s)

/-- The for-loop of import_fits: comment lines are skipped, every other line
is split by parseLine and its expression evaluated with the fixed globals;
the first exception aborts the whole call. -/
def processLines (g : Option EvalEnv) (fits : FitTable) : List String → Except PyError FitTable
  | [] => Except.ok fits
  | line :: rest =>
    if pyStartsWith line ('#') then processLines g fits rest
    else
      match pyEval g (parseLine line).2 with
      | Except.error e => Except.error e
      | Except.ok v => processLines g (dset fits (parseLine line).1 v) rest

/-- import_fits on the list of lines readlines produced, with m the optional
symbol-source module. -/
def import_fits (lines : List String) (m : Option PyModule) : Except PyError FitTable :=
  processLines (makeGlobalDict m) [] lines

/-- A file system: maps a filename to its readlines decomposition when the
file exists and is readable. -/
abbrev FileSystem := String → Option (List String)

/-- import_fits including the open/readlines step: a missing or unreadable
file raises before any parsing happens. -/
def import_fits_file (fs : FileSystem) (filename : String) (m : Option PyModule) :
    Except PyError FitTable :=
  match fs filename with
  | Option.none => Except.error (PyError.fileNotFound filename)
  | some lines => import_fits lines m

/-- The expression text of the last non-comment line whose extracted key is k,
if any. -/
def lastRecord : List String → String → Option String
  | [], _ => Option.none
  | line :: rest, k =>
    match lastRecord rest k with
    | some e => some e
    | Option.none =>
      if pyStartsWith line ('#') = false ∧ (parseLine line).1 = k
      then some (parseLine line).2 else Option.none

/-- Successful evaluation result as an option. -/
def evalOpt (g : Option EvalEnv) (e : String) : Option Value :=
  match pyEval g e with
  | Except.ok v => some v
  | Except.error _ => Option.none

/-- Key/expression extraction exactly as the specification words it: the key
is all characters before the first = with the single character immediately
preceding the = dropped and whitespace stripped; the expression is all
characters after the first = up to but excluding the line's final character,
whitespace stripped.  Defined only for lines containing an =; used to compare
the specified split with the one the source performs. -/
def parseLine_spec (line : String) : String × String :=
  match idxOf? line.toList ('=') with
  | some p =>
    (pyStrip (String.mk ((line.toList.take p).dropLast)),
     pyStrip (String.mk ((line.toList.drop (p + 1)).dropLast)))
  | Option.none => ("", "")

/-- The public attributes of a module: those whose name does not start with
an underscore.  This is the evaluation environment as the specification words
it. -/
def publicAttrs (m : PyModule) : EvalEnv :=
  m.filter (fun p => !(pyStartsWith p.1 ('_')))

/-- Expression evaluation as the specification words it: identifiers resolve
against exactly the given environment, with no builtins fallback. -/
def pyEval_spec (env : EvalEnv) (s : String) : Except PyError Value :=
  if isIntLit s then Except.ok (Value.int (digitsToNat s.toList))
  else if isIdent s then
    match dlookup s env with
    | some v => Except.ok v
    | Option.none => Except.error (PyError.nameError s)
  else Except.error (PyError.syntaxError s)

/-- getattr with the module state threaded through explicitly: reading an
attribute returns the module unchanged. -/
def getattrW (m : PyModule) (name : String) : Value × PyModule :=
  ((dlookup name m).getD Value.pynone, m)

/-- The globalDict construction with the symbol-source state threaded
through, so that what import_fits does to the module is observable. -/
def makeGlobalDictW (m : Option PyModule) : Option EvalEnv × Option PyModule :=
  match m with
  | some mod =>
    let r := (dirM mod).foldl
      (fun (acc : EvalEnv × PyModule) d =>
        let g := getattrW acc.2 d
        (dset acc.1 d g.1, g.2)) ([], mod)
    (some r.1, some r.2)
  | Option.none => (Option.none, Option.none)

/-- import_fits with the symbol-source state threaded through: the returned
module is the state of the caller-supplied object after the call. -/
def import_fitsW (lines : List String) (m : Option PyModule) :
    Except PyError FitTable × Option PyModule :=
  let r := makeGlobalDictW m
  (processLines r.1 [] lines, r.2)

theorem dlookup_append (k : String) (d1 d2 : List (String × Value)) :
    dlookup k (d1 ++ d2) =
      match dlookup k d1 with
      | some v => some v
      | Option.none => dlookup k d2 := by
  induction d1 with
  | nil => simp [dlookup]
  | cons p rest ih =>
    by_cases hp : p.1 = k <;> simp [dlookup, hp, ih]

theorem dlookup_eq_none_of_not_any (k : String) (d : List (String × Value))
    (h : d.any (fun p => p.1 = k) = false) : dlookup k d = Option.none := by
  induction d with
  | nil => rfl
  | cons p rest ih =>
    simp only [List.any_cons, Bool.or_eq_false_iff] at h
    have hp : ¬ p.1 = k := by simpa using h.1
    simp [dlookup, hp, ih h.2]

theorem dlookup_overwrite_pos (k : String) (v : Value) (d : List (String × Value))
    (h : d.any (fun p => p.1 = k) = true) :
    dlookup k (d.map (fun p => if p.1 = k then (k, v) else p)) = some v := by
  induction d with
  | nil => simp at h
  | cons p rest ih =>
    by_cases hp : p.1 = k
    · have he : (if p.1 = k then (k, v) else p) = (k, v) := if_pos hp
      rw [List.map_cons, he, dlookup]
      simp
    · have he : (if p.1 = k then (k, v) else p) = p := if_neg hp
      have hd : decide (p.1 = k) = false := decide_eq_false hp
      rw [List.any_cons, hd, Bool.false_or] at h
      rw [List.map_cons, he, dlookup, if_neg hp]
      exact ih h

theorem dlookup_map_ne (k k2 : String) (v : Value) (h : k2 ≠ k)
    (d : List (String × Value)) :
    dlookup k2 (d.map (fun p => if p.1 = k then (k, v) else p)) = dlookup k2 d := by
  induction d with
  | nil => rfl
  | cons p rest ih =>
    by_cases hp : p.1 = k
    · have hk2 : ¬ k = k2 := fun hh => h hh.symm
      have hp2 : ¬ p.1 = k2 := by rw [hp]; exact hk2
      simp [dlookup, hp, hk2, hp2, ih]
    · by_cases hq : p.1 = k2
      · simp [dlookup, hp, hq, ih, h]
      · simp [dlookup, hp, hq, ih]

theorem dlookup_dset_self (d : List (String × Value)) (k : String) (v : Value) :
    dlookup k (dset d k v) = some v := by
  unfold dset
  by_cases h : d.any (fun p => p.1 = k) = true
  · rw [if_pos h]
    exact dlookup_overwrite_pos k v d h
  · have h2 : d.any (fun p => p.1 = k) = false := Bool.eq_false_iff.mpr h
    rw [if_neg h, dlookup_append, dlookup_eq_none_of_not_any k d h2]
    simp [dlookup]

theorem dlookup_dset_ne (d : List (String × Value)) (k k2 : String) (v : Value)
    (h : k2 ≠ k) : dlookup k2 (dset d k v) = dlookup k2 d := by
  unfold dset
  by_cases hany : d.any (fun p => p.1 = k) = true
  · rw [if_pos hany, dlookup_map_ne k k2 v h]
  · rw [if_neg hany, dlookup_append]
    have hk : ¬ k = k2 := fun hh => h hh.symm
    have hsing : dlookup k2 [(k, v)] = Option.none := by
      simp [dlookup, hk]
    rw [hsing]
    cases dlookup k2 d <;> simp

theorem keys_map_overwrite (k : String) (v : Value) (d : List (String × Value)) :
    (d.map (fun p => if p.1 = k then (k, v) else p)).map Prod.fst = d.map Prod.fst := by
  induction d with
  | nil => rfl
  | cons p rest ih =>
    by_cases hp : p.1 = k
    · have hh : (if p.1 = k then (k, v) else p).1 = p.1 := by simp [hp]
      simp only [List.map_cons, hh, ih]
    · have hh : (if p.1 = k then (k, v) else p).1 = p.1 := by simp [hp]
      simp only [List.map_cons, hh, ih]

theorem keys_dset_mem (d : List (String × Value)) (k : String) (v : Value)
    (h : d.any (fun p => p.1 = k) = true) :
    (dset d k v).map Prod.fst = d.map Prod.fst := by
  unfold dset
  rw [if_pos h]
  exact keys_map_overwrite k v d

theorem keys_dset_new (d : List (String × Value)) (k : String) (v : Value)
    (h : ¬ d.any (fun p => p.1 = k) = true) :
    (dset d k v).map Prod.fst = d.map Prod.fst ++ [k] := by
  unfold dset
  rw [if_neg h]
  simp

theorem any_key_iff_mem (d : List (String × Value)) (k : String) :
    d.any (fun p => p.1 = k) = true ↔ k ∈ d.map Prod.fst := by
  simp only [List.any_eq_true, List.mem_map, decide_eq_true_eq]

theorem nodup_keys_dset (d : List (String × Value)) (k : String) (v : Value)
    (h : (d.map Prod.fst).Nodup) : ((dset d k v).map Prod.fst).Nodup := by
  by_cases hany : d.any (fun p => p.1 = k) = true
  · rw [keys_dset_mem d k v hany]
    exact h
  · have hk : k ∉ d.map Prod.fst := by
      intro hm
      exact hany ((any_key_iff_mem d k).mpr hm)
    rw [keys_dset_new d k v hany]
    simp [List.nodup_append, h, hk]

theorem processLines_error_of_line (g : Option EvalEnv) (lines : List String) :
    ∀ (acc : FitTable) (line : String), line ∈ lines →
      pyStartsWith line ('#') = false →
      (∃ e0, pyEval g (parseLine line).2 = Except.error e0) →
      ∃ e, processLines g acc lines = Except.error e := by
  induction lines with
  | nil =>
    intro acc line h
    exact absurd h (List.not_mem_nil line)
  | cons l rest ih =>
    intro acc line hmem hnc hev
    simp only [processLines]
    by_cases hcl : pyStartsWith l ('#') = true
    · rw [if_pos hcl]
      rcases List.mem_cons.mp hmem with hl | hl
      · subst hl
        rw [hcl] at hnc
        cases hnc
      · exact ih acc line hl hnc hev
    · rw [if_neg hcl]
      rcases List.mem_cons.mp hmem with hl | hl
      · subst hl
        rcases hev with ⟨e0, he⟩
        rw [he]
        exact ⟨e0, rfl⟩
      · cases hE : pyEval g (parseLine l).2 with
        | error e => exact ⟨e, rfl⟩
        | ok v => exact ih _ line hl hnc hev

theorem processLines_ok_all (g : Option EvalEnv) (lines : List String) :
    ∀ (acc t : FitTable), processLines g acc lines = Except.ok t →
      ∀ line ∈ lines, pyStartsWith line ('#') = false →
        ∃ v, pyEval g (parseLine line).2 = Except.ok v := by
  induction lines with
  | nil =>
    intro acc t _ line h
    exact absurd h (List.not_mem_nil line)
  | cons l rest ih =>
    intro acc t hok line hmem hnc
    simp only [processLines] at hok
    by_cases hcl : pyStartsWith l ('#') = true
    · rw [if_pos hcl] at hok
      rcases List.mem_cons.mp hmem with hl | hl
      · subst hl
        rw [hcl] at hnc
        cases hnc
      · exact ih acc t hok line hl hnc
    · rw [if_neg hcl] at hok
      cases hE : pyEval g (parseLine l).2 with
      | error e =>
        rw [hE] at hok
        cases hok
      | ok v =>
        rw [hE] at hok
        rcases List.mem_cons.mp hmem with hl | hl
        · subst hl
          exact ⟨v, hE⟩
        · exact ih _ t hok line hl hnc

theorem processLines_lookup (g : Option EvalEnv) (lines : List String) :
    ∀ (acc t : FitTable), processLines g acc lines = Except.ok t →
      ∀ k, dlookup k t =
        (match lastRecord lines k with
         | some e => evalOpt g e
         | Option.none => dlookup k acc) := by
  induction lines with
  | nil =>
    intro acc t hok k
    simp only [processLines] at hok
    cases hok
    rfl
  | cons l rest ih =>
    intro acc t hok k
    simp only [processLines] at hok
    by_cases hcl : pyStartsWith l ('#') = true
    · rw [if_pos hcl] at hok
      have hcond : ¬ (pyStartsWith l ('#') = false ∧ (parseLine l).1 = k) := by
        intro hc
        rw [hcl] at hc
        cases hc.1
      have := ih acc t hok k
      rw [this]
      simp only [lastRecord, if_neg hcond]
      cases lastRecord rest k <;> rfl
    · rw [if_neg hcl] at hok
      have hncl : pyStartsWith l ('#') = false := Bool.eq_false_iff.mpr hcl
      cases hE : pyEval g (parseLine l).2 with
      | error e =>
        rw [hE] at hok
        cases hok
      | ok v =>
        rw [hE] at hok
        have hih := ih _ t hok k
        cases hLR : lastRecord rest k with
        | some e =>
          rw [hLR] at hih
          rw [hih]
          simp only [lastRecord, hLR]
        | none =>
          rw [hLR] at hih
          by_cases hk : (parseLine l).1 = k
          · have hcond : pyStartsWith l ('#') = false ∧ (parseLine l).1 = k := ⟨hncl, hk⟩
            simp only [lastRecord, hLR, if_pos hcond]
            rw [hih]
            show dlookup k (dset acc (parseLine l).1 v) = evalOpt g (parseLine l).2
            subst hk
            rw [dlookup_dset_self]
            simp [evalOpt, hE]
          · have hcond : ¬ (pyStartsWith l ('#') = false ∧ (parseLine l).1 = k) := by
              intro hc
              exact hk hc.2
            simp only [lastRecord, hLR, if_neg hcond]
            rw [hih, dlookup_dset_ne acc (parseLine l).1 k v (fun hh => hk hh.symm)]

theorem processLines_nodup (g : Option EvalEnv) (lines : List String) :
    ∀ (acc t : FitTable), processLines g acc lines = Except.ok t →
      (acc.map Prod.fst).Nodup → (t.map Prod.fst).Nodup := by
  induction lines with
  | nil =>
    intro acc t hok h
    simp only [processLines] at hok
    cases hok
    exact h
  | cons l rest ih =>
    intro acc t hok h
    simp only [processLines] at hok
    by_cases hcl : pyStartsWith l ('#') = true
    · rw [if_pos hcl] at hok
      exact ih acc t hok h
    · rw [if_neg hcl] at hok
      cases hE : pyEval g (parseLine l).2 with
      | error e =>
        rw [hE] at hok
        cases hok
      | ok v =>
        rw [hE] at hok
        exact ih _ t hok (nodup_keys_dset acc (parseLine l).1 v h)

theorem toList_mk (l : List Char) : (String.mk l).toList = l := rfl

theorem pyIdx_nat (n k : Nat) : pyIdx n (k : Int) = min k n := by
  unfold pyIdx
  rw [if_neg (by omega)]
  omega

theorem pyIdx_negone (n : Nat) : pyIdx n (-1) = n - 1 := by
  unfold pyIdx
  rw [if_pos (by omega)]
  omega

theorem pyIdx_negtwo (n : Nat) : pyIdx n (-2) = n - 2 := by
  unfold pyIdx
  rw [if_pos (by omega)]
  omega

theorem pySlice_zero_nat (s : String) (k : Nat) :
    pySlice s 0 (k : Int) = String.mk (s.toList.take k) := by
  simp only [pySlice]
  have h0 : pyIdx s.toList.length 0 = 0 := by
    have := pyIdx_nat s.toList.length 0
    simpa using this
  rw [pyIdx_nat, h0, List.drop_zero]
  congr 1
  simp

theorem pySlice_nat_negone (s : String) (a : Nat) :
    pySlice s (a : Int) (-1) = String.mk ((s.toList.drop a).dropLast) := by
  simp only [pySlice]
  rw [pyIdx_nat, pyIdx_negone]
  congr 1
  rw [List.dropLast_eq_take, List.drop_take, List.length_drop]
  by_cases ha : a ≤ s.toList.length
  · rw [min_eq_left ha]
    congr 1
    omega
  · rw [min_eq_right (le_of_not_le ha), List.drop_length]
    have h2 : List.drop a s.toList = [] := List.drop_eq_nil_of_le (by omega)
    rw [h2]
    simp

theorem pySlice_zero_negone (s : String) :
    pySlice s 0 (-1) = String.mk s.toList.dropLast := by
  have h := pySlice_nat_negone s 0
  simpa [List.dropLast_eq_take] using h

theorem pySlice_zero_negtwo (s : String) :
    pySlice s 0 (-2) = String.mk s.toList.dropLast.dropLast := by
  simp only [pySlice]
  have h0 : pyIdx s.toList.length 0 = 0 := by
    have := pyIdx_nat s.toList.length 0
    simpa using this
  rw [pyIdx_negtwo, h0, List.drop_zero]
  congr 1
  rw [List.dropLast_eq_take, List.dropLast_eq_take, List.take_take, List.length_take]
  congr 1
  omega

theorem idxOf?_eq_none_of_not_mem (c : Char) (l : List Char) (h : c ∉ l) :
    idxOf? l c = Option.none := by
  induction l with
  | nil => rfl
  | cons a rest ih =>
    have ha : ¬ a = c := fun hh => h (hh ▸ List.mem_cons_self a rest)
    have hr : c ∉ rest := fun hh => h (List.mem_cons_of_mem a hh)
    simp [idxOf?, if_neg ha, ih hr]

theorem idxOf?_some_of_mem (c : Char) (l : List Char) (h : c ∈ l) :
    ∃ i, idxOf? l c = some i := by
  induction l with
  | nil => exact absurd h (List.not_mem_nil c)
  | cons a rest ih =>
    by_cases ha : a = c
    · exact ⟨0, by simp [idxOf?, ha]⟩
    · rcases List.mem_cons.mp h with hh | hh
      · exact absurd hh.symm ha
      · rcases ih hh with ⟨i, hi⟩
        exact ⟨i + 1, by simp [idxOf?, ha, hi]⟩

theorem idxOf?_lt_length (c : Char) (l : List Char) :
    ∀ i, idxOf? l c = some i → i < l.length := by
  induction l with
  | nil => intro i h; cases h
  | cons a rest ih =>
    intro i h
    simp only [idxOf?] at h
    by_cases ha : a = c
    · rw [if_pos ha] at h
      injection h with he
      subst he
      simp
    · rw [if_neg ha] at h
      cases hr : idxOf? rest c with
      | none => rw [hr] at h; cases h
      | some j =>
        rw [hr] at h
        have he : j + 1 = i := by
          simpa using h
        have hj := ih j hr
        simp only [List.length_cons]
        omega

theorem idxOf?_append_left (c : Char) (l t : List Char) (i : Nat)
    (h : idxOf? l c = some i) : idxOf? (l ++ t) c = some i := by
  induction l generalizing i with
  | nil => cases h
  | cons a rest ih =>
    show idxOf? (a :: (rest ++ t)) c = some i
    simp only [idxOf?] at h ⊢
    by_cases ha : a = c
    · rw [if_pos ha] at h ⊢
      exact h
    · rw [if_neg ha] at h ⊢
      cases hr : idxOf? rest c with
      | none => rw [hr] at h; cases h
      | some j =>
        rw [hr] at h
        rw [ih j hr]
        exact h

theorem pyFind_of_idx_some (line : String) (c : Char) (p : Nat)
    (h : idxOf? line.toList c = some p) : pyFind line c = (p : Int) := by
  unfold pyFind
  rw [h]

theorem pyFind_of_idx_none (line : String) (c : Char)
    (h : idxOf? line.toList c = Option.none) : pyFind line c = -1 := by
  unfold pyFind
  rw [h]

theorem parseLine_no_eq (line : String) (h : idxOf? line.toList ('=') = Option.none) :
    parseLine line =
      (pyStrip (String.mk line.toList.dropLast.dropLast),
       pyStrip (String.mk line.toList.dropLast)) := by
  unfold parseLine
  rw [pyFind_of_idx_none line ('=') h]
  norm_num
  rw [pySlice_zero_negtwo, pySlice_zero_negone]
  constructor <;> rfl

theorem parseLine_val (line : String) (p : Nat) (h : idxOf? line.toList ('=') = some p) :
    (parseLine line).2 = pyStrip (String.mk ((line.toList.drop (p + 1)).dropLast)) := by
  have hf := pyFind_of_idx_some line ('=') p h
  have hc : (p : Int) + 1 = ((p + 1 : Nat) : Int) := by push_cast; ring
  simp only [parseLine, hf, hc, pySlice_nat_negone]

theorem parseLine_key_pos (line : String) (p : Nat) (h : idxOf? line.toList ('=') = some p)
    (hp : 1 ≤ p) :
    (parseLine line).1 = pyStrip (String.mk (line.toList.take (p - 1))) := by
  have hf := pyFind_of_idx_some line ('=') p h
  have hc : (p : Int) - 1 = ((p - 1 : Nat) : Int) := by
    have h1 : (1 : Int) ≤ (p : Int) := by exact_mod_cast hp
    push_cast [hp]
    omega
  simp only [parseLine, hf, hc, pySlice_zero_nat]

theorem parseLine_key_zero (line : String) (h : idxOf? line.toList ('=') = some 0) :
    (parseLine line).1 = pyStrip (String.mk line.toList.dropLast) := by
  have hf := pyFind_of_idx_some line ('=') 0 h
  simp only [parseLine, hf]
  norm_num
  rw [pySlice_zero_negone]
  rfl

theorem stripList_eq_nil (l : List Char) (h : ∀ c ∈ l, c.isWhitespace = true) :
    stripList l = [] := by
  unfold stripList
  have h1 : l.dropWhile Char.isWhitespace = [] := List.dropWhile_eq_nil_iff.mpr h
  rw [h1]
  rfl

theorem pyStrip_ws (s : String) (h : ∀ c ∈ s.toList, c.isWhitespace = true) :
    pyStrip s = "" := by
  unfold pyStrip
  rw [stripList_eq_nil s.toList h]

theorem pyStartsWith_false_of_ws (line : String)
    (h : ∀ c ∈ line.toList, c.isWhitespace = true) :
    pyStartsWith line ('#') = false := by
  simp only [pyStartsWith]
  cases hl : line.toList with
  | nil => rfl
  | cons c0 cs =>
    have hc := h c0 (hl ▸ List.mem_cons_self c0 cs)
    have hne : ¬ c0 = ('#') := by
      intro hh
      rw [hh] at hc
      exact absurd hc (by decide)
    exact decide_eq_false hne

theorem not_eq_mem_of_ws (l : List Char) (h : ∀ c ∈ l, c.isWhitespace = true) :
    ('=') ∉ l := by
  intro hm
  exact absurd (h _ hm) (by decide)

theorem pyEval_empty (g : Option EvalEnv) :
    pyEval g "" = Except.error (PyError.syntaxError "") := by
  cases g <;> rfl

theorem lastRecord_some_spec (k : String) (lines : List String) :
    ∀ e, lastRecord lines k = some e →
      ∃ line ∈ lines, pyStartsWith line ('#') = false ∧
        (parseLine line).1 = k ∧ (parseLine line).2 = e := by
  induction lines with
  | nil => intro e h; cases h
  | cons l rest ih =>
    intro e h
    simp only [lastRecord] at h
    cases hLR : lastRecord rest k with
    | some e2 =>
      rw [hLR] at h
      injection h with he
      subst he
      rcases ih e2 hLR with ⟨line, hm, h1, h2, h3⟩
      exact ⟨line, List.mem_cons_of_mem l hm, h1, h2, h3⟩
    | none =>
      rw [hLR] at h
      by_cases hc : pyStartsWith l ('#') = false ∧ (parseLine l).1 = k
      · rw [if_pos hc] at h
        injection h with he
        exact ⟨l, List.mem_cons_self l rest, hc.1, hc.2, he⟩
      · rw [if_neg hc] at h
        cases h

theorem lastRecord_some_of_mem (k : String) (lines : List String) :
    ∀ line ∈ lines, pyStartsWith line ('#') = false → (parseLine line).1 = k →
      ∃ e, lastRecord lines k = some e := by
  induction lines with
  | nil =>
    intro line h
    exact absurd h (List.not_mem_nil line)
  | cons l rest ih =>
    intro line hmem h1 h2
    simp only [lastRecord]
    cases hLR : lastRecord rest k with
    | some e => exact ⟨e, rfl⟩
    | none =>
      rcases List.mem_cons.mp hmem with hl | hl
      · subst hl
        rw [if_pos ⟨h1, h2⟩]
        exact ⟨(parseLine line).2, rfl⟩
      · rcases ih line hl h1 h2 with ⟨e, he⟩
        rw [he] at hLR
        cases hLR

theorem foldl_dset_lookup (m : PyModule) (ds : List String) :
    ∀ (acc : EvalEnv) (k : String),
      dlookup k (ds.foldl (fun g d => dset g d (getattrM m d)) acc) =
        if k ∈ ds then some (getattrM m k) else dlookup k acc := by
  induction ds with
  | nil =>
    intro acc k
    simp
  | cons d rest ih =>
    intro acc k
    rw [List.foldl_cons, ih]
    by_cases hk : k ∈ rest
    · rw [if_pos hk, if_pos (List.mem_cons_of_mem d hk)]
    · rw [if_neg hk]
      by_cases hd : k = d
      · subst hd
        rw [dlookup_dset_self, if_pos (List.mem_cons_self k rest)]
      · have hnm : k ∉ d :: rest := by
          intro hm
          rcases List.mem_cons.mp hm with h1 | h2
          · exact hd h1
          · exact hk h2
        rw [dlookup_dset_ne acc d k (getattrM m d) hd, if_neg hnm]

theorem dlookup_isSome_of_mem_keys (d : List (String × Value)) (k : String)
    (h : k ∈ d.map Prod.fst) : ∃ v, dlookup k d = some v := by
  induction d with
  | nil => simp at h
  | cons p rest ih =>
    by_cases hp : p.1 = k
    · exact ⟨p.2, by simp [dlookup, hp]⟩
    · simp only [List.map_cons, List.mem_cons] at h
      rcases h with h1 | h2
      · exact absurd h1.symm hp
      · rcases ih h2 with ⟨v, hv⟩
        exact ⟨v, by simp [dlookup, hp, hv]⟩

theorem makeGlobalDict_lookup (mod : PyModule) (k : String) :
    dlookup k ((dirM mod).foldl (fun g d => dset g d (getattrM mod d)) []) =
      dlookup k mod := by
  rw [foldl_dset_lookup mod (dirM mod) [] k]
  by_cases hm : k ∈ dirM mod
  · rw [if_pos hm]
    rcases dlookup_isSome_of_mem_keys mod k hm with ⟨v, hv⟩
    rw [hv]
    unfold getattrM
    rw [hv]
    rfl
  · rw [if_neg hm]
    have hnone : dlookup k mod = Option.none := by
      apply dlookup_eq_none_of_not_any
      rw [Bool.eq_false_iff]
      intro hany
      exact hm ((any_key_iff_mem mod k).mp hany)
    rw [hnone]
    rfl

theorem processLines_all_comments (g : Option EvalEnv) :
    ∀ (lines : List String), (∀ line ∈ lines, pyStartsWith line ('#') = true) →
      ∀ acc, processLines g acc lines = Except.ok acc := by
  intro lines
  induction lines with
  | nil =>
    intro _ acc
    rfl
  | cons l rest ih =>
    intro h acc
    simp only [processLines]
    rw [if_pos (h l (List.mem_cons_self l rest))]
    exact ih (fun line hl => h line (List.mem_cons_of_mem l hl)) acc

theorem processLines_ok_of_all (g : Option EvalEnv) :
    ∀ (lines : List String),
      (∀ line ∈ lines, pyStartsWith line ('#') = false →
        ∃ v, pyEval g (parseLine line).2 = Except.ok v) →
      ∀ acc, ∃ t, processLines g acc lines = Except.ok t := by
  intro lines
  induction lines with
  | nil =>
    intro _ acc
    exact ⟨acc, rfl⟩
  | cons l rest ih =>
    intro h acc
    simp only [processLines]
    by_cases hcl : pyStartsWith l ('#') = true
    · rw [if_pos hcl]
      exact ih (fun x hx => h x (List.mem_cons_of_mem l hx)) acc
    · rw [if_neg hcl]
      have hncl : pyStartsWith l ('#') = false := Bool.eq_false_iff.mpr hcl
      rcases h l (List.mem_cons_self l rest) hncl with ⟨v, hv⟩
      rw [hv]
      exact ih (fun x hx => h x (List.mem_cons_of_mem l hx)) (dset acc (parseLine l).1 v)

theorem dropLast_take_of_le (l : List Char) (p : Nat) (hp : p ≤ l.length) :
    (l.take p).dropLast = l.take (p - 1) := by
  rw [List.dropLast_eq_take, List.take_take, List.length_take]
  congr 1
  omega

theorem foldW_module_unchanged (m : PyModule) (ds : List String) :
    ∀ (g : EvalEnv),
      ds.foldl (fun (acc : EvalEnv × PyModule) d =>
          let r := getattrW acc.2 d
          (dset acc.1 d r.1, r.2)) (g, m) =
        (ds.foldl (fun g2 d => dset g2 d (getattrM m d)) g, m) := by
  induction ds with
  | nil =>
    intro g
    rfl
  | cons d rest ih =>
    intro g
    rw [List.foldl_cons, List.foldl_cons]
    exact ih (dset g d (getattrM m d))

theorem import_fitsW_eq (lines : List String) (m : Option PyModule) :
    import_fitsW lines m = (import_fits lines m, m) := by
  cases m with
  | none => rfl
  | some mod =>
    simp only [import_fitsW, import_fits, makeGlobalDictW, makeGlobalDict,
      foldW_module_unchanged mod (dirM mod) []]

/-- C9: for every input file all of whose lines begin with the comment
character, import_fits returns an empty mapping. -/
theorem import_fits_all_comments_empty (lines : List String) (m : Option PyModule)
    (h : ∀ line ∈ lines, pyStartsWith line ('#') = true) :
    import_fits lines m = Except.ok [] := by
  unfold import_fits
  exact processLines_all_comments (makeGlobalDict m) lines h []

theorem import_fits_all_comments_empty_witness :
    import_fits ["# alum-bronze\n", "#\n"] Option.none = Except.ok [] :=
  import_fits_all_comments_empty ["# alum-bronze\n", "#\n"] Option.none (by decide)

/-- C7: a blank (whitespace-only or empty) non-comment line is not skipped:
it parses to an empty expression string, whose evaluation raises, so
import_fits on any file containing such a line fails. -/
theorem import_fits_blank_line_fails (lines : List String) (m : Option PyModule)
    (line : String) (hmem : line ∈ lines)
    (hws : ∀ c ∈ line.toList, c.isWhitespace = true) :
    ∃ e, import_fits lines m = Except.error e := by
  unfold import_fits
  apply processLines_error_of_line (makeGlobalDict m) lines [] line hmem
    (pyStartsWith_false_of_ws line hws)
  have hidx : idxOf? line.toList ('=') = Option.none :=
    idxOf?_eq_none_of_not_mem ('=') line.toList (not_eq_mem_of_ws line.toList hws)
  have hval : (parseLine line).2 = pyStrip (String.mk line.toList.dropLast) := by
    rw [parseLine_no_eq line hidx]
  have hempty : pyStrip (String.mk line.toList.dropLast) = "" := by
    apply pyStrip_ws
    intro c hc
    rw [toList_mk] at hc
    exact hws c (List.dropLast_subset line.toList hc)
  rw [hval, hempty, pyEval_empty]
  exact ⟨PyError.syntaxError "", rfl⟩

theorem import_fits_blank_line_fails_witness :
    ∃ e, import_fits ["a = 3\n", "  \n"] Option.none = Except.error e :=
  import_fits_blank_line_fails ["a = 3\n", "  \n"] Option.none "  \n"
    (by decide) (by decide)

/-- C5: the contract is all-or-nothing per file.  A missing file fails with
the file-access error before any parsing; otherwise a full mapping is
returned exactly when every non-comment line's expression evaluates, and any
line failure surfaces as an error with no partial mapping. -/
theorem import_fits_all_or_nothing (fs : FileSystem) (filename : String)
    (m : Option PyModule) :
    (fs filename = Option.none →
      import_fits_file fs filename m = Except.error (PyError.fileNotFound filename)) ∧
    (∀ lines, fs filename = some lines →
      ((∃ t, import_fits_file fs filename m = Except.ok t) ↔
        (∀ line ∈ lines, pyStartsWith line ('#') = false →
          ∃ v, pyEval (makeGlobalDict m) (parseLine line).2 = Except.ok v))) := by
  constructor
  · intro h
    unfold import_fits_file
    rw [h]
  · intro lines hls
    unfold import_fits_file
    rw [hls]
    constructor
    · rintro ⟨t, ht⟩ line hm hnc
      exact processLines_ok_all (makeGlobalDict m) lines [] t ht line hm hnc
    · intro hall
      exact processLines_ok_of_all (makeGlobalDict m) lines hall []

theorem import_fits_all_or_nothing_witness :
    import_fits_file (fun _ => Option.none) ("fits.txt") Option.none =
      Except.error (PyError.fileNotFound ("fits.txt")) :=
  (import_fits_all_or_nothing (fun _ => Option.none) ("fits.txt") Option.none).1 rfl

/-- C8: the one-character end-of-line trim is applied unconditionally: a
record line parses identically whether its final character is a newline or
any other character, so on a last line without a trailing newline the final
character of the expression itself is dropped. -/
theorem parseLine_drops_final_char_unconditionally (l : List Char) (c : Char)
    (h : ('=') ∈ l) :
    parseLine (String.mk (l ++ [c])) = parseLine (String.mk (l ++ [('\n')])) := by
  rcases idxOf?_some_of_mem ('=') l h with ⟨p, hp⟩
  have hp1 : idxOf? (String.mk (l ++ [c])).toList ('=') = some p := by
    rw [toList_mk]
    exact idxOf?_append_left ('=') l [c] p hp
  have hp2 : idxOf? (String.mk (l ++ [('\n')])).toList ('=') = some p := by
    rw [toList_mk]
    exact idxOf?_append_left ('=') l [('\n')] p hp
  have hplen := idxOf?_lt_length ('=') l p hp
  rw [Prod.ext_iff]
  constructor
  · rcases Nat.eq_zero_or_pos p with hz | hpos
    · subst hz
      rw [parseLine_key_zero (String.mk (l ++ [c])) hp1,
        parseLine_key_zero (String.mk (l ++ [('\n')])) hp2]
      rw [toList_mk, toList_mk, List.dropLast_concat, List.dropLast_concat]
    · rw [parseLine_key_pos (String.mk (l ++ [c])) p hp1 hpos,
        parseLine_key_pos (String.mk (l ++ [('\n')])) p hp2 hpos]
      rw [toList_mk, toList_mk,
        List.take_append_of_le_length (by omega),
        List.take_append_of_le_length (by omega)]
  · rw [parseLine_val (String.mk (l ++ [c])) p hp1,
      parseLine_val (String.mk (l ++ [('\n')])) p hp2]
    rw [toList_mk, toList_mk,
      List.drop_append_of_le_length (by omega),
      List.drop_append_of_le_length (by omega),
      List.dropLast_concat, List.dropLast_concat]

theorem parseLine_drops_final_char_unconditionally_witness :
    ('=') ∈ "beta = 12".toList ∧
      parseLine (String.mk ("beta = 12".toList ++ [('2')])) =
        parseLine (String.mk ("beta = 12".toList ++ [('\n')])) :=
  ⟨by decide,
   parseLine_drops_final_char_unconditionally ("beta = 12".toList) ('2') (by decide)⟩

/-- C1 counterexample: the line of digits contains no equals sign, yet
import_fits neither raises a malformed-line error nor skips the line: find
returns -1, the line parses as key line[0:-2] and expression line[0:-1], and
the call silently succeeds with an entry mapping the truncated key to the
evaluated remainder. -/
theorem import_fits_no_eq_line_succeeds_cex :
    ('=') ∉ "42\n".toList ∧
      import_fits ["42\n"] Option.none = Except.ok [("4", Value.int 42)] := by
  constructor
  · decide
  · decide

/-- C1 amended: for a non-comment line with no equals sign, find yields -1,
so the line is parsed with key line[0:-2].strip() and expression
line[0:-1].strip(); the expression is then evaluated, and the call fails
exactly when that evaluation fails, otherwise an entry is produced. -/
theorem import_fits_no_eq_line_evaluates (line : String) (m : Option PyModule)
    (hne : ('=') ∉ line.toList) (hnc : pyStartsWith line ('#') = false) :
    import_fits [line] m =
      (pyEval (makeGlobalDict m) (pyStrip (String.mk line.toList.dropLast))).map
        (fun v => [(pyStrip (String.mk line.toList.dropLast.dropLast), v)]) := by
  have hidx : idxOf? line.toList ('=') = Option.none :=
    idxOf?_eq_none_of_not_mem ('=') line.toList hne
  have hpl := parseLine_no_eq line hidx
  unfold import_fits
  simp only [processLines]
  rw [if_neg (by rw [hnc]; simp), hpl]
  cases hE : pyEval (makeGlobalDict m)
      (pyStrip (String.mk line.toList.dropLast)) with
  | error e => rfl
  | ok v =>
    show Except.ok (dset [] (pyStrip (String.mk line.toList.dropLast.dropLast)) v) = _
    simp [dset, Except.map]

theorem import_fits_no_eq_line_evaluates_witness :
    ('=') ∉ "hello\n".toList ∧ pyStartsWith "hello\n" ('#') = false ∧
      import_fits ["hello\n"] Option.none =
        (pyEval (makeGlobalDict Option.none)
            (pyStrip (String.mk "hello\n".toList.dropLast))).map
          (fun v => [(pyStrip (String.mk "hello\n".toList.dropLast.dropLast), v)]) :=
  ⟨by decide, by decide,
   import_fits_no_eq_line_evaluates "hello\n" Option.none (by decide) (by decide)⟩

/-- C2 counterexample: on a line whose first character is the equals sign,
find returns 0, so the key slice line[0:0-1] wraps around to line[0:-1] and
the key becomes the whole line minus its final character rather than the
empty string the specified split (drop one character before the first
equals sign) would produce. -/
theorem parseLine_eq_first_char_cex :
    ('=') ∈ "=5\n".toList ∧
      parseLine "=5\n" = ("=5", "5") ∧
      parseLine_spec "=5\n" = ("", "5") ∧
      parseLine "=5\n" ≠ parseLine_spec "=5\n" := by
  refine ⟨by decide, by decide, by decide, by decide⟩

/-- C2 amended: whenever the first equals sign is not the line's first
character, the source's split agrees exactly with the specified one: key =
everything before the first equals sign minus the single character
immediately preceding it, stripped; expression = everything after it up to
but excluding the line's final character, stripped. -/
theorem parseLine_agrees_with_spec (line : String) (p : Nat)
    (h : idxOf? line.toList ('=') = some p) (hp : 1 ≤ p) :
    parseLine line = parseLine_spec line := by
  have hlen := idxOf?_lt_length ('=') line.toList p h
  have hspec : parseLine_spec line =
      (pyStrip (String.mk ((line.toList.take p).dropLast)),
       pyStrip (String.mk ((line.toList.drop (p + 1)).dropLast))) := by
    unfold parseLine_spec
    rw [h]
  rw [hspec, Prod.ext_iff]
  constructor
  · rw [parseLine_key_pos line p h hp]
    show pyStrip (String.mk (line.toList.take (p - 1))) =
      pyStrip (String.mk ((line.toList.take p).dropLast))
    rw [dropLast_take_of_le line.toList p (le_of_lt hlen)]
  · exact parseLine_val line p h

theorem parseLine_agrees_with_spec_witness :
    idxOf? "a = 3\n".toList ('=') = some 2 ∧
      parseLine "a = 3\n" = parseLine_spec "a = 3\n" :=
  ⟨by decide, parseLine_agrees_with_spec "a = 3\n" 2 (by decide) (by decide)⟩

/-- C3: on success the table has pairwise-distinct keys; each key's stored
value is the evaluation of the expression of the last non-comment line with
that key, and a key is present exactly when some non-comment line produced
it. -/
theorem import_fits_last_occurrence_wins (lines : List String) (m : Option PyModule)
    (t : FitTable) (h : import_fits lines m = Except.ok t) :
    (t.map Prod.fst).Nodup ∧
    (∀ k, dlookup k t =
      (match lastRecord lines k with
       | some e => evalOpt (makeGlobalDict m) e
       | Option.none => Option.none)) ∧
    (∀ k, (∃ v, dlookup k t = some v) ↔
      (∃ line ∈ lines, pyStartsWith line ('#') = false ∧ (parseLine line).1 = k)) := by
  unfold import_fits at h
  refine ⟨processLines_nodup (makeGlobalDict m) lines [] t h (by simp), ?_, ?_⟩
  · intro k
    have hl := processLines_lookup (makeGlobalDict m) lines [] t h k
    rw [hl]
    cases lastRecord lines k <;> rfl
  · intro k
    constructor
    · rintro ⟨v, hv⟩
      have hl := processLines_lookup (makeGlobalDict m) lines [] t h k
      rw [hv] at hl
      cases hLR : lastRecord lines k with
      | none =>
        rw [hLR] at hl
        exact Option.noConfusion hl
      | some e =>
        rcases lastRecord_some_spec k lines e hLR with ⟨line, hm, h1, h2, _⟩
        exact ⟨line, hm, h1, h2⟩
    · rintro ⟨line, hm, h1, h2⟩
      rcases lastRecord_some_of_mem k lines line hm h1 h2 with ⟨e, he⟩
      rcases lastRecord_some_spec k lines e he with ⟨line2, hm2, h21, h22, h23⟩
      rcases processLines_ok_all (makeGlobalDict m) lines [] t h line2 hm2 h21 with ⟨v, hv⟩
      have hl := processLines_lookup (makeGlobalDict m) lines [] t h k
      rw [he] at hl
      refine ⟨v, ?_⟩
      rw [hl]
      show evalOpt (makeGlobalDict m) e = some v
      rw [← h23]
      unfold evalOpt
      rw [hv]

theorem import_fits_last_occurrence_wins_witness :
    dlookup "a" [("a", Value.int 2)] =
      (match lastRecord ["a = 1\n", "a = 2\n"] "a" with
       | some e => evalOpt (makeGlobalDict Option.none) e
       | Option.none => Option.none) :=
  (import_fits_last_occurrence_wins ["a = 1\n", "a = 2\n"] Option.none
    [("a", Value.int 2)] (by decide)).2.1 "a"

/-- C4 counterexample: the evaluation environment is not only the public
attributes, nor do identifiers resolve against exactly it: an
underscore-prefixed attribute resolves, and builtins resolve even though
absent from the module, while the specified public-attributes-only
environment rejects both. -/
theorem eval_env_not_public_attrs_cex :
    import_fits ["y = _x\n"] (some [("_x", Value.int 7)]) =
        Except.ok [("y", Value.int 7)] ∧
      pyEval_spec (publicAttrs [("_x", Value.int 7)]) "_x" =
        Except.error (PyError.nameError "_x") ∧
      import_fits ["z = abs\n"] (some [("_x", Value.int 7)]) =
        Except.ok [("z", Value.builtin ("abs"))] ∧
      pyEval_spec (publicAttrs [("_x", Value.int 7)]) "abs" =
        Except.error (PyError.nameError "abs") := by
  refine ⟨by decide, by decide, by decide, by decide⟩

/-- C4 amended: for an identifier expression the environment is all of the
module's attributes (public and non-public alike, as dir lists them), and
resolution falls back to Python builtins for names the module does not
bind. -/
theorem eval_env_all_attrs_with_builtins (mod : PyModule) (name : String)
    (hlit : isIntLit name = false) (hid : isIdent name = true) :
    pyEval (makeGlobalDict (some mod)) name =
      (match dlookup name mod with
       | some v => Except.ok v
       | Option.none =>
         match dlookup name builtins with
         | some v => Except.ok v
         | Option.none => Except.error (PyError.nameError name)) := by
  simp only [pyEval, makeGlobalDict]
  rw [if_neg (by rw [hlit]; simp), if_pos hid]
  rw [makeGlobalDict_lookup mod name]

theorem eval_env_all_attrs_with_builtins_witness :
    isIntLit "_x" = false ∧ isIdent "_x" = true ∧
      pyEval (makeGlobalDict (some [("_x", Value.int 7)])) "_x" =
        Except.ok (Value.int 7) := by
  refine ⟨by decide, by decide, ?_⟩
  have h := eval_env_all_attrs_with_builtins [("_x", Value.int 7)] "_x"
    (by decide) (by decide)
  rw [h]
  decide

/-- C6: with the absence marker for the symbol source, the importer passes
None as the eval globals, under which names resolve in the importer module's
own global namespace with builtins available: abs and import_fits both
evaluate, unlike in an empty environment restricted to literals, which would
reject them. -/
theorem none_env_uses_importer_globals_and_builtins :
    makeGlobalDict Option.none = Option.none ∧
      pyEval Option.none ("abs") = Except.ok (Value.builtin ("abs")) ∧
      pyEval Option.none ("import_fits") =
        Except.ok (Value.builtin ("import_fits")) ∧
      import_fits ["x = abs\n"] Option.none =
        Except.ok [("x", Value.builtin ("abs"))] ∧
      pyEval_spec [] ("abs") = Except.error (PyError.nameError "abs") := by
  refine ⟨rfl, by decide, by decide, by decide, by decide⟩

/-- C10: the caller-supplied symbol source is never mutated: threading its
state through the call explicitly, import_fits hands it back unchanged while
computing the same result, whether the call succeeds or fails. -/
theorem import_fits_preserves_symbol_source (lines : List String)
    (m : Option PyModule) :
    (import_fitsW lines m).2 = m ∧ (import_fitsW lines m).1 = import_fits lines m := by
  rw [import_fitsW_eq lines m]
  exact ⟨rfl, rfl⟩
